import Mathlib

/-!
# Tv-Bark-Relay: shallow embedding of `src/app.py`

This file embeds the pure logic of the relay's Python source in Lean 4 and
proves the specification claims about it.

Conventions of the embedding:
* Python strings are Lean `String`s; character-level operations work on
  `String.data : List Char`.
* Python's Unicode-aware `str.upper`, `str.strip`, `str.isdigit` are modelled
  by their ASCII restrictions (`Char.toUpper`, `Char.isWhitespace`,
  `Char.isDigit`); ticker codes and the configuration strings handled by this
  program are ASCII.
* The two outbound HTTP calls are modelled by oracle functions passed as
  explicit arguments; each embedded I/O function additionally returns the
  list of requests it issued, so "performs zero outbound calls" is the
  statement that this list is empty.
* Python floats are modelled as exact decimals (`Dec`); the `"%.2f"`
  formatting rounds half-to-even, matching CPython on the values in scope.
-/

/-- `s.strip()` of Python, restricted to ASCII whitespace: drop whitespace
from both ends of the character list. -/
def pyStrip (l : List Char) : List Char :=
  ((l.dropWhile Char.isWhitespace).reverse.dropWhile Char.isWhitespace).reverse

/-- `s.split(":")[-1]` of Python: the substring after the last colon. -/
def afterLastColon (l : List Char) : List Char :=
  (l.reverse.takeWhile (fun c => c != ':')).reverse

/-- One iteration of the suffix loop in `normalize_ticker`:
`if s.endswith(suf): s = s[:-len(suf)]`. -/
def stripSuffix1 (l : List Char) (suf : List Char) : List Char :=
  if suf.isSuffixOf l then l.take (l.length - suf.length) else l

/-- The tuple `(".SZ", ".SH", ".SS", ".CSI")` iterated by the suffix loop of
`normalize_ticker`, in source order. -/
def dotSuffixes : List (List Char) :=
  [".SZ".data, ".SH".data, ".SS".data, ".CSI".data]

/-- Character-level body of `normalize_ticker` (src/app.py lines 37-50):
`s = str(raw_ticker).strip().upper()`; `if ":" in s: s = s.split(":")[-1]`;
the suffix loop over `(".SZ", ".SH", ".SS", ".CSI")`; and finally
`s = "".join(ch for ch in s if ch.isdigit())`. -/
def normTickerList (l : List Char) : List Char :=
  let s1 := (pyStrip l).map Char.toUpper
  let s2 := if s1.contains ':' then afterLastColon s1 else s1
  let s3 := dotSuffixes.foldl stripSuffix1 s2
  s3.filter Char.isDigit

/-- `normalize_ticker` (src/app.py lines 24-50): normalise a raw
TradingView ticker; `if not raw_ticker: return ""` then the character
pipeline. -/
def normalize_ticker (raw_ticker : String) : String :=
  if raw_ticker = "" then "" else String.mk (normTickerList raw_ticker.data)

/-- First window of six consecutive digits starting at the head of `l`,
if there is one. Helper for the claimed extraction policy. -/
def takeSixDigits (l : List Char) : Option (List Char) :=
  let six := l.take 6
  if six.length = 6 ∧ six.all Char.isDigit then some six else none

/-- Leftmost run of six consecutive digits anywhere in `l` (regex-style
scan for `\d-6-times`), if any. Helper for the claimed extraction policy. -/
def findSixRun : List Char → Option (List Char)
  | [] => none
  | c :: cs =>
    match takeSixDigits (c :: cs) with
    | some r => some r
    | none => findSixRun cs

/-- The normalisation algorithm exactly as claim C2 states it: uppercase,
keep the part after the last colon, strip a recognised dot-suffix, then
extract the first run of exactly six consecutive digits found anywhere in
the remaining string (empty if none). Differs from the source only in the
final extraction step. -/
def normSpecSixRun (raw_ticker : String) : String :=
  if raw_ticker = "" then ""
  else
    let s1 := (pyStrip raw_ticker.data).map Char.toUpper
    let s2 := if s1.contains ':' then afterLastColon s1 else s1
    let s3 := dotSuffixes.foldl stripSuffix1 s2
    match findSixRun s3 with
    | some r => String.mk r
    | none => ""

/-- Recursive "keep only the digit characters" (the amended final step of
claim C2), written independently of `List.filter`. -/
def keepDigits : List Char → List Char
  | [] => []
  | c :: cs => if c.isDigit then c :: keepDigits cs else keepDigits cs

/-- The normalisation algorithm as amended for claim C2: the same pipeline,
with the final step "keep every digit character of the remaining string"
(and the four suffixes tried one after the other, in source order). -/
def normalize_amended (raw_ticker : String) : String :=
  if raw_ticker = "" then ""
  else
    let s1 := (pyStrip raw_ticker.data).map Char.toUpper
    let s2 := if s1.contains ':' then afterLastColon s1 else s1
    let s3 := stripSuffix1 (stripSuffix1 (stripSuffix1 (stripSuffix1 s2 ".SZ".data) ".SH".data) ".SS".data) ".CSI".data
    String.mk (keepDigits s3)

/-- Minimal model of the values `resp.json()` can produce, covering the
shapes `fetch_stock_name_from_eastmoney` inspects: JSON objects, strings
and `null`. -/
inductive PyJson where
  | obj (fields : List (String × PyJson))
  | str (s : String)
  | jnull

/-- Python truthiness of a JSON value: `None`, `""` and the empty dict are
falsy, everything else in scope is truthy. -/
def jsonTruthy : PyJson → Bool
  | .obj fs => !fs.isEmpty
  | .str s => s != ""
  | .jnull => false

/-- `j.get(k) or dflt` of Python for a dict `j`: the value at `k` when it
is present and truthy, otherwise `dflt`. On a non-dict the real code
raises `AttributeError`, which the surrounding `try` turns into the empty
result; returning `dflt` here yields the same observable empty result. -/
def pyGetOr (j : PyJson) (k : String) (dflt : PyJson) : PyJson :=
  match j with
  | .obj fs =>
    match fs.lookup k with
    | some v => if jsonTruthy v then v else dflt
    | none => dflt
  | _ => dflt

/-- The response-parsing step of `fetch_stock_name_from_eastmoney`
(src/app.py lines 92-97): `data = j.get("data") or {}` then
`name = data.get("f58") or ""`. The quote service returns the name as a
JSON string; a non-string `f58` is mapped to the empty name. -/
def extract_name (j : PyJson) : String :=
  match pyGetOr (pyGetOr j "data" (.obj [])) "f58" (.str "") with
  | .str s => s
  | _ => ""

/-- Outcome of the outbound `requests.get` in the name lookup: `raise`
models a transport failure or timeout (any exception), `resp` carries the
HTTP status and the result of `resp.json()` (`.error ()` when the body is
not JSON and `resp.json()` raises). -/
inductive HttpResult where
  | raise
  | resp (status : Nat) (body : Except Unit PyJson)

/-- The `secid` the code builds (src/app.py lines 67-73): market prefix
`"1"` (Shanghai) when the code starts with `'6'`, else `"0"` (Shenzhen),
joined to the code with a dot. -/
def secidOf (code : String) : String :=
  (match code.data with | '6' :: _ => "1" | _ => "0") ++ "." ++ code

/-- `fetch_stock_name_from_eastmoney` (src/app.py lines 57-100), with the
HTTP call abstracted as the oracle `http` and the list of issued request
`secid`s returned alongside the name. Guard: `not code or len(code) != 6
or not code.isdigit()` returns `""` with no call; then one request is
issued and any failure path yields `""`. -/
def fetch_stock_name (http : String → HttpResult) (code : String) : String × List String :=
  if code = "" ∨ code.data.length ≠ 6 ∨ ¬ code.data.all Char.isDigit = true then ("", [])
  else
    match http (secidOf code) with
    | .raise => ("", [secidOf code])
    | .resp status body =>
      if status ≠ 200 then ("", [secidOf code])
      else
        match body with
        | .error _ => ("", [secidOf code])
        | .ok j => (extract_name j, [secidOf code])

/-- The spec's Exchange domain: Shanghai, Shenzhen, or Unknown. -/
inductive Exchange where
  | shanghai
  | shenzhen
  | unknown
deriving DecidableEq

/-- Exchange inference as the code performs it (src/app.py lines 64-71):
the guard `not code or len(code) != 6 or not code.isdigit()` is the only
path with no market (Unknown); otherwise market `"1"` (Shanghai) when the
leading character is `'6'` and market `"0"` (Shenzhen) for every other
6-digit code. -/
def inferExchange (code : String) : Exchange :=
  if code = "" ∨ code.data.length ≠ 6 ∨ ¬ code.data.all Char.isDigit = true then .unknown
  else match code.data with
    | '6' :: _ => .shanghai
    | _ => .shenzhen

/-- Result of one `resolveName` call: the resolved name, the NameTable
after the call, and the number of outbound calls performed. -/
structure ResolveOut where
  name : String
  table : List (String × String)
  calls : Nat
deriving DecidableEq

/-- Modelled from the spec: the NameTable-backed `resolveName` of §4.3
(steps 1-4). The NameTable cache is absent from src/app.py (this revision
calls `fetch_stock_name_from_eastmoney` on every request); the table,
the cache-hit step and the write-back step are taken from the spec's
words, while step 3 is the source's `fetch_stock_name`. -/
def resolveName (table : List (String × String)) (http : String → HttpResult) (code : String) : ResolveOut :=
  if code = "" ∨ inferExchange code = .unknown then ⟨"", table, 0⟩
  else
    match table.lookup code with
    | some n => ⟨n, table, 0⟩
    | none =>
      if (fetch_stock_name http code).1 ≠ "" then
        ⟨(fetch_stock_name http code).1,
          (code, (fetch_stock_name http code).1) :: table,
          (fetch_stock_name http code).2.length⟩
      else ⟨"", table, (fetch_stock_name http code).2.length⟩

/-- `build_name_code` (src/app.py lines 103-120): normalise the raw ticker,
fetch the name when a code was extracted, and compose the label. -/
def build_name_code (http : String → HttpResult) (raw_ticker : String) : String × String :=
  let code := normalize_ticker raw_ticker
  let name := if code ≠ "" then (fetch_stock_name http code).1 else ""
  let name_code :=
    if name ≠ "" ∧ code ≠ "" then name ++ " " ++ code
    else if code ≠ "" then code
    else if raw_ticker ≠ "" then raw_ticker else "Unknown"
  (name_code, code)

/-- An oracle whose quote service always answers status 200 with the given
parsed JSON body. -/
def httpJson (j : PyJson) : String → HttpResult := fun _ => .resp 200 (.ok j)

/-- An oracle answering every lookup with a well-formed record naming the
stock "SPDB". -/
def httpOK : String → HttpResult :=
  httpJson (.obj [("data", .obj [("f58", .str "SPDB")])])

/-- An oracle whose quote service is unreachable: every request raises. -/
def httpDown : String → HttpResult := fun _ => .raise

/-- An exact decimal number `m / 10 ^ e`. Every value Python's `float()`
grammar denotes is an exact decimal, and the price literals this program
receives are decimal, so this represents the numbers `format_price`
handles exactly (the binary-double rounding of CPython is not modelled;
it agrees on the values in scope). -/
structure Dec where
  m : ℤ
  e : ℕ
deriving DecidableEq

/-- The inbound `price` value as `format_price` can receive it: JSON
`null`/absent (`None`), a string, or a number. -/
inductive PyVal where
  | vnone
  | vstr (s : String)
  | vnum (d : Dec)
deriving DecidableEq

/-- Numeric value of a digit run. -/
def digitsVal (l : List Char) : ℕ :=
  l.foldl (fun a c => a * 10 + (c.toNat - 48)) 0

/-- Multiply a decimal by `10 ^ x` (`x` possibly negative). -/
def Dec.scalePow10 (d : Dec) (x : ℤ) : Dec :=
  match x with
  | .ofNat n => ⟨d.m * (10 : ℤ) ^ n, d.e⟩
  | .negSucc n => ⟨d.m, d.e + (n + 1)⟩

/-- The exponent tail of Python's `float()` grammar: after `e`/`E`, an
optional sign and at least one digit, scaling `mant` by the power of ten. -/
def parseExpDigits (mant : Dec) (l : List Char) : Option Dec :=
  let p := match l with
    | '+' :: r => ((1 : ℤ), r)
    | '-' :: r => ((-1 : ℤ), r)
    | r => ((1 : ℤ), r)
  if p.2 ≠ [] ∧ p.2.all Char.isDigit = true then
    some (mant.scalePow10 (p.1 * (digitsVal p.2 : ℤ)))
  else none

/-- Python's `float()` on the characters after the optional sign:
`digits [. digits] [exponent]` or `. digits [exponent]`, rejecting
anything else. (`inf`/`nan` and underscore separators are outside the
inputs this program sees and are not modelled.) -/
def parseAfterSign (sign : ℤ) (l : List Char) : Option Dec :=
  let ip := l.takeWhile Char.isDigit
  let r1 := l.dropWhile Char.isDigit
  match r1 with
  | [] => if ip = [] then none else some ⟨sign * (digitsVal ip : ℤ), 0⟩
  | '.' :: r2 =>
    let fp := r2.takeWhile Char.isDigit
    let r3 := r2.dropWhile Char.isDigit
    if ip = [] ∧ fp = [] then none
    else
      let mant : Dec := ⟨sign * (digitsVal ip * 10 ^ fp.length + digitsVal fp : ℤ), fp.length⟩
      match r3 with
      | [] => some mant
      | 'e' :: r4 => parseExpDigits mant r4
      | 'E' :: r4 => parseExpDigits mant r4
      | _ => none
  | 'e' :: r4 => if ip = [] then none else parseExpDigits ⟨sign * (digitsVal ip : ℤ), 0⟩ r4
  | 'E' :: r4 => if ip = [] then none else parseExpDigits ⟨sign * (digitsVal ip : ℤ), 0⟩ r4
  | _ => none

/-- Python's `float(s)` on a string: strip surrounding whitespace, read an
optional sign, then the decimal body. `none` models the `ValueError` the
`except` branch of `format_price` catches. -/
def pyParseFloat (s : String) : Option Dec :=
  match pyStrip s.data with
  | '+' :: r => parseAfterSign 1 r
  | '-' :: r => parseAfterSign (-1) r
  | l => parseAfterSign 1 l

/-- `float(price_raw)`: numbers convert to themselves, `None` raises
(`none`), strings go through the `float()` grammar. -/
def pyFloatOf : PyVal → Option Dec
  | .vnone => none
  | .vnum d => some d
  | .vstr s => pyParseFloat s

/-- `str(price_raw)` as used in the `except` branch of `format_price`. The
branch is only reachable for strings (numbers always convert and `None` is
caught by the emptiness guard), so the numeric case is a placeholder. -/
def pyStrOf : PyVal → String
  | .vnone => "None"
  | .vstr s => s
  | .vnum d => toString d.m

/-- Round `a / den` (`den > 0`) to the nearest integer, ties to even: the
rounding CPython's `"%.2f"` applies. -/
def roundHalfEvenScaled (a : ℤ) (den : ℤ) : ℤ :=
  let q := a.fdiv den
  let r := a.fmod den
  if 2 * r < den then q
  else if 2 * r > den then q + 1
  else if 2 ∣ q then q else q + 1

/-- Two-digit decimal rendering of `n < 100`. -/
def twoDigits (n : ℕ) : String :=
  (if n < 10 then "0" else "") ++ toString n

/-- `"%.2f"` formatting of the exact decimal `d`: fixed-point with two
digits after the decimal point, rounding half to even. -/
def fix2 (d : Dec) : String :=
  let n := roundHalfEvenScaled (d.m * 100) ((10 : ℤ) ^ d.e)
  (if n < 0 then "-" else "") ++ toString (n.natAbs / 100) ++ "." ++ twoDigits (n.natAbs % 100)

/-- `format_price` (src/app.py lines 123-134): `""` for `None` or the
empty string; otherwise `float(price_raw)` formatted to two decimals on
success, and `str(price_raw)` when the conversion raises. -/
def format_price (price_raw : PyVal) : String :=
  if price_raw = .vnone ∨ price_raw = .vstr "" then ""
  else
    match pyFloatOf price_raw with
    | some p => fix2 p
    | none => pyStrOf price_raw

/-- Outcome of the outbound `requests.get` of `send_bark`: an exception
(with its message) or a status/text response. -/
inductive BarkHttp where
  | raise (msg : String)
  | resp (status : Nat) (text : String)

/-- The dict `send_bark` returns, field for field: `ok` always, plus
`error` on the failure paths and `status_code`/`text` after a response. -/
structure BarkResult where
  ok : Bool
  error : Option String
  status_code : Option Nat
  text : Option String
deriving DecidableEq

/-- Uppercase hexadecimal digit, as `urllib.parse.quote` emits. -/
def hexDigitChar (n : Nat) : Char :=
  if n < 10 then Char.ofNat (48 + n) else Char.ofNat (55 + n)

/-- `urllib.parse.quote(s)`: keep ASCII letters, digits and `_.-~` plus the
default-safe `/`; percent-encode every other character byte by byte
(UTF-8). -/
def pyQuote (s : String) : String :=
  String.mk ((s.data.map fun c =>
    if c.isAlphanum ∨ c = '_' ∨ c = '.' ∨ c = '-' ∨ c = '~' ∨ c = '/' then [c]
    else ((String.utf8EncodeChar c).map fun b =>
      ['%', hexDigitChar (b.toNat / 16), hexDigitChar (b.toNat % 16)]).flatten).flatten)

/-- `send_bark` (src/app.py lines 141-161), with the environment's
`BARK_KEY` (absent or a string) and `BARK_SERVER` passed explicitly and
the HTTP call abstracted as an oracle taking the URL and the `group`
parameter. The list of issued `(url, group)` requests is returned
alongside the result dict. `if not BARK_KEY` short-circuits on an absent
or empty key. -/
def send_bark (bark_key : Option String) (bark_server : String) (http : String → String → BarkHttp) (title : String) (body : String) (group : String) : BarkResult × List (String × String) :=
  match bark_key with
  | none => (⟨false, some "BARK_KEY not set", none, none⟩, [])
  | some k =>
    if k = "" then (⟨false, some "BARK_KEY not set", none, none⟩, [])
    else
      let bark_url := bark_server ++ "/" ++ k ++ "/" ++ pyQuote title ++ "/" ++ pyQuote body
      match http bark_url group with
      | .raise msg => (⟨false, some msg, none, none⟩, [(bark_url, group)])
      | .resp status text => (⟨status == 200, none, some status, some text⟩, [(bark_url, group)])

/-- Splitting a character list on the delimiter `'~'`. Helper for the
extraction policy claim C5 attributes to the resolver. -/
def splitOnTilde : List Char → List (List Char)
  | [] => [[]]
  | c :: cs =>
    let r := splitOnTilde cs
    if c = '~' then [] :: r
    else
      match r with
      | [] => [[c]]
      | f :: rest => (c :: f) :: rest

/-- The response-parsing step exactly as claim C5 states it: treat the
response text as a `~`-separated record and take the field at index 1
(empty when there is no such field). -/
def claimedFieldExtract (body : String) : String :=
  match (splitOnTilde body.data).drop 1 with
  | f :: _ => String.mk f
  | [] => ""

theorem uint32_le_iff {a b : UInt32} : a ≤ b ↔ a.toNat ≤ b.toNat := by
  rw [UInt32.le_def, BitVec.le_def]
  exact Iff.rfl

theorem char_isDigit_iff {c : Char} : c.isDigit = true ↔ 48 ≤ c.toNat ∧ c.toNat ≤ 57 := by
  simp only [Char.isDigit, Bool.and_eq_true, decide_eq_true_eq, ge_iff_le]
  constructor
  · rintro ⟨h1, h2⟩
    exact ⟨uint32_le_iff.mp h1, uint32_le_iff.mp h2⟩
  · rintro ⟨h1, h2⟩
    exact ⟨uint32_le_iff.mpr h1, uint32_le_iff.mpr h2⟩

theorem char_ofNat_65_90_not_digit : ∀ n < 91, 65 ≤ n → (Char.ofNat n).isDigit = false := by
  decide

theorem toUpper_isDigit (c : Char) : (Char.toUpper c).isDigit = c.isDigit := by
  unfold Char.toUpper
  by_cases h : c.toNat ≥ 97 ∧ c.toNat ≤ 122
  · rw [if_pos h]
    have h1 : (Char.ofNat (c.toNat - 32)).isDigit = false :=
      char_ofNat_65_90_not_digit (c.toNat - 32) (by omega) (by omega)
    have h2 : c.isDigit = false := by
      cases hd : c.isDigit
      · rfl
      · exact absurd (char_isDigit_iff.mp hd).2 (by omega)
    rw [h1, h2]
  · rw [if_neg h]

theorem toUpper_digit_fixed {c : Char} (h : c.isDigit = true) : Char.toUpper c = c := by
  unfold Char.toUpper
  have h2 := (char_isDigit_iff.mp h).2
  rw [if_neg (by omega)]

theorem digit_not_ws {c : Char} (h : c.isDigit = true) : c.isWhitespace = false := by
  cases hw : c.isWhitespace
  · rfl
  · simp only [Char.isWhitespace, Bool.or_eq_true, decide_eq_true_eq] at hw
    rcases hw with (((rfl | rfl) | rfl) | rfl) <;> simp_all

theorem keepDigits_eq_filter (l : List Char) : keepDigits l = l.filter Char.isDigit := by
  induction l with
  | nil => rfl
  | cons c cs ih =>
    simp only [keepDigits, List.filter_cons]
    by_cases h : c.isDigit <;> simp [h, ih]

theorem mem_pyStrip {c : Char} {l : List Char} (h : c ∈ pyStrip l) : c ∈ l := by
  simp only [pyStrip, List.mem_reverse] at h
  exact List.dropWhile_subset _ (List.mem_reverse.mp (List.dropWhile_subset _ h))

theorem mem_afterLastColon {c : Char} {l : List Char} (h : c ∈ afterLastColon l) : c ∈ l := by
  simp only [afterLastColon, List.mem_reverse] at h
  exact List.mem_reverse.mp (List.takeWhile_subset _ h)

theorem mem_stripSuffix1 {c : Char} {l suf : List Char} (h : c ∈ stripSuffix1 l suf) : c ∈ l := by
  unfold stripSuffix1 at h
  by_cases hs : suf.isSuffixOf l
  · rw [if_pos hs] at h
    exact List.take_subset _ _ h
  · rwa [if_neg hs] at h

theorem mem_foldl_stripSuffix {c : Char} :
    ∀ (sufs : List (List Char)) (l : List Char), c ∈ sufs.foldl stripSuffix1 l → c ∈ l := by
  intro sufs
  induction sufs with
  | nil => intro l h; exact h
  | cons s ss ih =>
    intro l h
    exact mem_stripSuffix1 (ih (stripSuffix1 l s) h)

theorem mem_normTickerList {c : Char} {l : List Char} (h : c ∈ normTickerList l) :
    c.isDigit = true ∧ ∃ c0 ∈ l, c = Char.toUpper c0 := by
  unfold normTickerList at h
  have hd := List.of_mem_filter h
  have h1 := List.mem_of_mem_filter h
  have h2 := mem_foldl_stripSuffix _ _ h1
  have h3 : c ∈ (pyStrip l).map Char.toUpper := by
    by_cases hc : ((pyStrip l).map Char.toUpper).contains ':'
    · rw [if_pos hc] at h2
      exact mem_afterLastColon h2
    · rwa [if_neg hc] at h2
  obtain ⟨c0, hc0, rfl⟩ := List.mem_map.mp h3
  exact ⟨hd, c0, mem_pyStrip hc0, rfl⟩

theorem dropWhile_ws_of_digits {l : List Char} (h : ∀ c ∈ l, c.isDigit = true) :
    l.dropWhile Char.isWhitespace = l := by
  cases l with
  | nil => rfl
  | cons c cs =>
    rw [List.dropWhile_cons]
    simp [digit_not_ws (h c (by simp))]

theorem pyStrip_of_digits {l : List Char} (h : ∀ c ∈ l, c.isDigit = true) : pyStrip l = l := by
  unfold pyStrip
  rw [dropWhile_ws_of_digits h]
  rw [dropWhile_ws_of_digits (fun c hc => h c (List.mem_reverse.mp hc))]
  exact List.reverse_reverse l

theorem map_toUpper_of_digits {l : List Char} (h : ∀ c ∈ l, c.isDigit = true) :
    l.map Char.toUpper = l := by
  induction l with
  | nil => rfl
  | cons c cs ih =>
    simp only [List.map_cons]
    rw [toUpper_digit_fixed (h c (by simp)), ih (fun x hx => h x (by simp [hx]))]

theorem contains_colon_false_of_digits {l : List Char} (h : ∀ c ∈ l, c.isDigit = true) :
    l.contains ':' = false := by
  cases hc : l.contains ':'
  · rfl
  · have hm : ':' ∈ l := List.elem_iff.mp hc
    have := h ':' hm
    exact absurd this (by decide)

theorem isSuffixOf_false_of_digits {l suf : List Char} (h : ∀ c ∈ l, c.isDigit = true)
    {c : Char} (hc : c ∈ suf) (hcd : c.isDigit = false) : suf.isSuffixOf l = false := by
  cases hs : suf.isSuffixOf l
  · rfl
  · have hsuf : suf <:+ l := List.isSuffixOf_iff_suffix.mp hs
    have := h c (hsuf.subset hc)
    rw [this] at hcd
    cases hcd

theorem stripSuffix1_of_digits {l suf : List Char} (h : ∀ c ∈ l, c.isDigit = true)
    (hdot : '.' ∈ suf) : stripSuffix1 l suf = l := by
  unfold stripSuffix1
  rw [isSuffixOf_false_of_digits h hdot (by decide)]
  simp

theorem normTickerList_of_digits {l : List Char} (h : ∀ c ∈ l, c.isDigit = true) :
    normTickerList l = l := by
  simp only [normTickerList]
  rw [pyStrip_of_digits h, map_toUpper_of_digits h, contains_colon_false_of_digits h]
  simp only [Bool.false_eq_true, if_false, dotSuffixes, List.foldl]
  rw [stripSuffix1_of_digits h (by decide)]
  rw [stripSuffix1_of_digits h (by decide)]
  rw [stripSuffix1_of_digits h (by decide)]
  rw [stripSuffix1_of_digits h (by decide)]
  exact List.filter_eq_self.mpr h

theorem string_data_mk (l : List Char) : (String.mk l).data = l := rfl

theorem normTickerList_all_digits (l : List Char) :
    (normTickerList l).all Char.isDigit = true := by
  rw [List.all_eq_true]
  intro c hc
  exact (mem_normTickerList hc).1

theorem normalize_ticker_all_digits (raw : String) :
    (normalize_ticker raw).data.all Char.isDigit = true := by
  unfold normalize_ticker
  by_cases h : raw = ""
  · rw [if_pos h]
    rfl
  · rw [if_neg h, string_data_mk]
    exact normTickerList_all_digits raw.data

theorem normTickerList_nil_of_no_digits {l : List Char} (h : ∀ c ∈ l, c.isDigit = false) :
    normTickerList l = [] := by
  rw [List.eq_nil_iff_forall_not_mem]
  intro c hc
  obtain ⟨hd, c0, hc0, rfl⟩ := mem_normTickerList hc
  rw [toUpper_isDigit, h c0 hc0] at hd
  cases hd

theorem string_mk_data (s : String) : String.mk s.data = s := rfl

theorem foldl_dotSuffixes (l : List Char) :
    dotSuffixes.foldl stripSuffix1 l =
      stripSuffix1 (stripSuffix1 (stripSuffix1 (stripSuffix1 l ".SZ".data) ".SH".data) ".SS".data) ".CSI".data := rfl

theorem normTickerList_eq_amendedList (l : List Char) :
    normTickerList l =
      keepDigits (stripSuffix1 (stripSuffix1 (stripSuffix1 (stripSuffix1
        (if ((pyStrip l).map Char.toUpper).contains ':' then afterLastColon ((pyStrip l).map Char.toUpper)
          else (pyStrip l).map Char.toUpper) ".SZ".data) ".SH".data) ".SS".data) ".CSI".data) := by
  rw [keepDigits_eq_filter, ← foldl_dotSuffixes]
  rfl

theorem tickerGuard_false_of_valid {code : String} (h6 : code.data.length = 6)
    (hd : code.data.all Char.isDigit = true) :
    ¬ (code = "" ∨ code.data.length ≠ 6 ∨ ¬ code.data.all Char.isDigit = true) := by
  rintro (rfl | h | h)
  · exact absurd h6 (by decide)
  · exact h h6
  · exact h hd

theorem inferExchange_eq_unknown_iff (code : String) :
    inferExchange code = .unknown ↔
      (code = "" ∨ code.data.length ≠ 6 ∨ ¬ code.data.all Char.isDigit = true) := by
  unfold inferExchange
  by_cases h : code = "" ∨ code.data.length ≠ 6 ∨ ¬ code.data.all Char.isDigit = true
  · rw [if_pos h]
    exact iff_of_true rfl h
  · rw [if_neg h]
    simp only [h, iff_false]
    intro hx
    split at hx
    · exact Exchange.noConfusion hx
    · exact Exchange.noConfusion hx

theorem fetch_guard_result {code : String} {http : String → HttpResult}
    (hg : code = "" ∨ code.data.length ≠ 6 ∨ ¬ code.data.all Char.isDigit = true) :
    fetch_stock_name http code = ("", []) := by
  unfold fetch_stock_name
  rw [if_pos hg]

theorem fetch_calls_singleton {code : String} {http : String → HttpResult}
    (hg : ¬ (code = "" ∨ code.data.length ≠ 6 ∨ ¬ code.data.all Char.isDigit = true)) :
    (fetch_stock_name http code).2 = [secidOf code] := by
  unfold fetch_stock_name
  rw [if_neg hg]
  rcases http (secidOf code) with _ | ⟨status, body⟩
  · rfl
  · by_cases hs : status = 200
    · rcases body with _ | j
      · simp [hs]
      · simp [hs]
    · simp [hs]

/-- Claim C1, counterexample: on input `"12345"` the source's `normalize_ticker`
returns `"12345"`, which is neither a string of exactly six digits nor the
empty string — and `"12345"` contains no run of six consecutive digits, yet
the result is non-empty. -/
theorem C1_cex :
    ¬ ((normalize_ticker "12345").length = 6 ∨ normalize_ticker "12345" = "") := by
  decide

/-- Claim C1 as amended: for every input string, every character of
`normalize_ticker`'s result is an ASCII digit (the length is not
constrained to six), and for every input containing no digit characters at
all the result is the empty string. -/
theorem C1_amended_thm (raw : String) :
    (normalize_ticker raw).data.all Char.isDigit = true ∧
    ((∀ c ∈ raw.data, c.isDigit = false) → normalize_ticker raw = "") := by
  refine ⟨normalize_ticker_all_digits raw, ?_⟩
  intro h
  unfold normalize_ticker
  by_cases hr : raw = ""
  · rw [if_pos hr]
  · rw [if_neg hr, normTickerList_nil_of_no_digits h]

/-- Witness for C1: concrete instances of both conjuncts at inputs
`"abc"` (no digits) and `"a1b2"`. -/
theorem C1_amended_witness :
    (normalize_ticker "a1b2").data.all Char.isDigit = true ∧ normalize_ticker "abc" = "" :=
  ⟨(C1_amended_thm "a1b2").1, (C1_amended_thm "abc").2 (by decide)⟩

/-- Claim C2, counterexample: the source's extraction step keeps every digit
character, it does not extract a first run of exactly six consecutive
digits. On `"123x456"` (which has no six-digit run) the claimed algorithm
(`normSpecSixRun`) yields `""` while the code yields `"123456"`. -/
theorem C2_cex :
    normalize_ticker "123x456" = "123456" ∧ normSpecSixRun "123x456" = "" ∧
      normalize_ticker "123x456" ≠ normSpecSixRun "123x456" := by
  refine ⟨by decide, by decide, by decide⟩

/-- Claim C2 as amended: `normalize_ticker` computes its result by the
stated pipeline — strip surrounding whitespace and uppercase; if a colon is
present keep only the substring after the last colon; strip the recognised
dot-suffixes, tried in the order `.SZ`, `.SH`, `.SS`, `.CSI`; then keep
every digit character of the remaining string (`normalize_amended` spells
out exactly that algorithm). -/
theorem C2_amended_thm (raw : String) : normalize_ticker raw = normalize_amended raw := by
  unfold normalize_ticker normalize_amended
  by_cases h : raw = ""
  · rw [if_pos h, if_pos h]
  · rw [if_neg h, if_neg h]
    exact congrArg String.mk (normTickerList_eq_amendedList raw.data)

/-- Claim C9: `normalize_ticker` is the identity on already-normalised
codes — any string of exactly six ASCII digits is returned unchanged. -/
theorem C9_thm (s : String) (h6 : s.data.length = 6)
    (hd : s.data.all Char.isDigit = true) : normalize_ticker s = s := by
  have hne : ¬ s = "" := by
    intro e
    subst e
    exact absurd h6 (by decide)
  unfold normalize_ticker
  rw [if_neg hne, normTickerList_of_digits (List.all_eq_true.mp hd), string_mk_data]

/-- Witness for C9: the already-normalised code `"600519"` is returned
unchanged. -/
theorem C9_witness : normalize_ticker "600519" = "600519" :=
  C9_thm "600519" (by decide) (by decide)

/-- Claim C10: every character of `normalize_ticker`'s result is an ASCII
digit, but the result's length is unconstrained: `"12345"` (five digit
characters) yields the non-empty `"12345"` of length 5, and `"1234567"`
(seven digit characters) yields the non-empty `"1234567"` of length 7. -/
theorem C10_thm :
    (∀ raw : String, (normalize_ticker raw).data.all Char.isDigit = true) ∧
    normalize_ticker "12345" = "12345" ∧ (normalize_ticker "12345").length = 5 ∧
    normalize_ticker "1234567" = "1234567" ∧ (normalize_ticker "1234567").length = 7 :=
  ⟨normalize_ticker_all_digits, by decide, by decide, by decide, by decide⟩

/-- Claim C4, counterexample: the code has no Unknown branch for well-formed
codes — `"999999"` (leading digit 9, which the claim maps to Unknown) is
inferred as Shenzhen (market `"0"`), and the resolver does issue a remote
call for it (here against an unreachable service). -/
theorem C4_cex :
    inferExchange "999999" = Exchange.shenzhen ∧
      inferExchange "999999" ≠ Exchange.unknown ∧
      (fetch_stock_name httpDown "999999").2 = ["0.999999"] := by
  refine ⟨by decide, by decide, by rfl⟩

/-- Claim C4 as amended: the Exchange is Unknown exactly for codes failing
the well-formedness guard (empty, not of length six, or not all digits);
among well-formed codes a leading `'6'` maps to Shanghai and every other
leading digit (0 and 3, but also 1, 2, 4, 5, 7, 8, 9) maps to Shenzhen.
Name resolution returns empty with zero outbound calls when the Exchange is
Unknown, and issues exactly one call (the one `secid` request) otherwise. -/
theorem C4_amended_thm (code : String) (http : String → HttpResult) :
    (inferExchange code = .unknown → fetch_stock_name http code = ("", [])) ∧
    (inferExchange code ≠ .unknown → (fetch_stock_name http code).2 = [secidOf code]) ∧
    (code.data.length = 6 → code.data.all Char.isDigit = true →
      ((code.data.head? = some '6' → inferExchange code = .shanghai) ∧
       (code.data.head? ≠ some '6' → inferExchange code = .shenzhen))) := by
  refine ⟨?_, ?_, ?_⟩
  · intro hu
    exact fetch_guard_result ((inferExchange_eq_unknown_iff code).mp hu)
  · intro hu
    exact fetch_calls_singleton (fun h => hu ((inferExchange_eq_unknown_iff code).mpr h))
  · intro h6 hall
    have hg := tickerGuard_false_of_valid h6 hall
    constructor
    · intro hh
      unfold inferExchange
      rw [if_neg hg]
      rcases hl : code.data with _ | ⟨c, rest⟩
      · rw [hl] at h6
        exact absurd h6 (by decide)
      · rw [hl] at hh
        simp only [List.head?_cons, Option.some.injEq] at hh
        subst hh
        rfl
    · intro hh
      unfold inferExchange
      rw [if_neg hg]
      split
      · rename_i rest heq
        rw [heq] at hh
        exact absurd rfl hh
      · rfl

/-- Witness for C4: the Unknown code `"12345"` resolves to empty with zero
calls; the well-formed `"600519"` (Shanghai) and `"000559"` (Shenzhen)
issue exactly one call each, and their leading digits map as amended. -/
theorem C4_amended_witness :
    fetch_stock_name httpDown "12345" = ("", []) ∧
    (fetch_stock_name httpDown "600519").2 = [secidOf "600519"] ∧
    inferExchange "600519" = Exchange.shanghai ∧
    (fetch_stock_name httpDown "000559").2 = [secidOf "000559"] ∧
    inferExchange "000559" = Exchange.shenzhen :=
  ⟨(C4_amended_thm "12345" httpDown).1 (by decide),
   (C4_amended_thm "600519" httpDown).2.1 (by decide),
   ((C4_amended_thm "600519" httpDown).2.2 (by decide) (by decide)).1 (by decide),
   (C4_amended_thm "000559" httpDown).2.1 (by decide),
   ((C4_amended_thm "000559" httpDown).2.2 (by decide) (by decide)).2 (by decide)⟩

/-- Claim C3: after one successful remote resolution of a previously-absent
code (no table entry, a resolvable exchange, and a non-empty fetched name),
the resolved name is written into the NameTable keyed by that code; the
first call performs exactly one outbound call, and a second `resolveName`
call for the same code performs zero outbound calls and returns the same
value with the table unchanged. (`resolveName` is modelled from the spec;
this revision of the source has no NameTable.) -/
theorem C3_thm (table : List (String × String)) (http : String → HttpResult) (code : String)
    (habs : table.lookup code = none)
    (hex : inferExchange code ≠ .unknown)
    (hname : (fetch_stock_name http code).1 ≠ "") :
    (resolveName table http code).calls = 1 ∧
    (resolveName table http code).name = (fetch_stock_name http code).1 ∧
    (resolveName table http code).table.lookup code = some (resolveName table http code).name ∧
    resolveName (resolveName table http code).table http code =
      ⟨(resolveName table http code).name, (resolveName table http code).table, 0⟩ := by
  have hne : ¬ (code = "" ∨ inferExchange code = .unknown) := by
    rintro (rfl | h)
    · exact hex (by decide)
    · exact hex h
  have hg : ¬ (code = "" ∨ code.data.length ≠ 6 ∨ ¬ code.data.all Char.isDigit = true) :=
    fun h => hex ((inferExchange_eq_unknown_iff code).mpr h)
  have hfirst : resolveName table http code =
      ⟨(fetch_stock_name http code).1,
        (code, (fetch_stock_name http code).1) :: table,
        (fetch_stock_name http code).2.length⟩ := by
    unfold resolveName
    rw [if_neg hne, habs]
    rw [if_pos hname]
  rw [hfirst]
  refine ⟨?_, rfl, ?_, ?_⟩
  · show (fetch_stock_name http code).2.length = 1
    rw [fetch_calls_singleton hg]
    rfl
  · show ((code, (fetch_stock_name http code).1) :: table).lookup code =
      some (fetch_stock_name http code).1
    simp [List.lookup]
  · show resolveName ((code, (fetch_stock_name http code).1) :: table) http code = _
    unfold resolveName
    rw [if_neg hne]
    simp [List.lookup]

/-- Witness for C3: starting from the empty table, resolving `"600000"`
against an always-answering quote service caches `("600000", "SPDB")` and
the second resolution returns the same name with zero calls. -/
theorem C3_witness :
    (resolveName [] httpOK "600000").calls = 1 ∧
    (resolveName [] httpOK "600000").name = (fetch_stock_name httpOK "600000").1 ∧
    (resolveName [] httpOK "600000").table.lookup "600000" =
      some (resolveName [] httpOK "600000").name ∧
    resolveName (resolveName [] httpOK "600000").table httpOK "600000" =
      ⟨(resolveName [] httpOK "600000").name, (resolveName [] httpOK "600000").table, 0⟩ :=
  C3_thm [] httpOK "600000" (by rfl) (by decide) (by decide)

/-- Claim C5, counterexample: the resolver does not split the response on
`~`. Given the text `"v_sz000001~PAB~000001"` — a genuine `~`-separated
record whose field at index 1 is `"PAB"` — the claimed extraction yields
`"PAB"`, but the code parses responses as JSON: this text is not JSON, so
`resp.json()` raises (modelled `.error ()`) and the resolver returns `""`.
The name actually comes from the `f58` field of the parsed JSON `data`
object. -/
theorem C5_cex :
    claimedFieldExtract "v_sz000001~PAB~000001" = "PAB" ∧
    (fetch_stock_name (fun _ => HttpResult.resp 200 (Except.error ())) "000001").1 = "" ∧
    extract_name (PyJson.obj [("data", PyJson.obj [("f58", PyJson.str "PAB")])]) = "PAB" := by
  refine ⟨by decide, by rfl, by decide⟩

/-- Claim C5 as amended: the resolver parses the quote-service response as
JSON and takes the display name from the field `"f58"` of the `"data"`
object; a response with no `"data"` object, or with an empty `"f58"`,
yields the empty name. -/
theorem C5_amended_thm (code n : String) (h6 : code.data.length = 6)
    (hall : code.data.all Char.isDigit = true) :
    (fetch_stock_name (httpJson (.obj [("data", .obj [("f58", .str n)])])) code).1 = n ∧
    (fetch_stock_name (httpJson (.obj [])) code).1 = "" ∧
    (fetch_stock_name (httpJson (.obj [("data", .obj [])])) code).1 = "" := by
  have hg := tickerGuard_false_of_valid h6 hall
  refine ⟨?_, ?_, ?_⟩
  · unfold fetch_stock_name
    rw [if_neg hg]
    by_cases hn : n = ""
    · subst hn
      rfl
    · show extract_name (.obj [("data", .obj [("f58", .str n)])]) = n
      have hbne : (n != "") = true := by simpa using hn
      simp [extract_name, pyGetOr, jsonTruthy, List.lookup, hbne]
  · unfold fetch_stock_name
    rw [if_neg hg]
    rfl
  · unfold fetch_stock_name
    rw [if_neg hg]
    rfl

/-- Witness for C5: for the well-formed code `"600000"` and the name
`"PAB"`, the three amended response scenarios evaluate as stated. -/
theorem C5_amended_witness :
    (fetch_stock_name (httpJson (.obj [("data", .obj [("f58", .str "PAB")])])) "600000").1 = "PAB" ∧
    (fetch_stock_name (httpJson (.obj [])) "600000").1 = "" ∧
    (fetch_stock_name (httpJson (.obj [("data", .obj [])])) "600000").1 = "" :=
  C5_amended_thm "600000" "PAB" (by decide) (by decide)

theorem pyGetOr_obj (fs : List (String × PyJson)) (k : String) (dflt : PyJson) :
    pyGetOr (.obj fs) k dflt =
      (match fs.lookup k with
        | some v => if jsonTruthy v then v else dflt
        | none => dflt) := rfl

/-- Claim C6: for every code and every oracle behaviour, each failure mode
of the remote name lookup — transport exception, non-success HTTP status,
unparsable body, missing `"data"` object, missing `"f58"` field — makes
`fetch_stock_name` return the empty string; the function is total, so no
error escapes to the caller. -/
theorem C6_thm (code : String) (http : String → HttpResult) :
    (http (secidOf code) = .raise → (fetch_stock_name http code).1 = "") ∧
    (∀ status body, status ≠ 200 → http (secidOf code) = .resp status body →
      (fetch_stock_name http code).1 = "") ∧
    (http (secidOf code) = .resp 200 (.error ()) → (fetch_stock_name http code).1 = "") ∧
    (∀ fs, fs.lookup "data" = none → http (secidOf code) = .resp 200 (.ok (.obj fs)) →
      (fetch_stock_name http code).1 = "") ∧
    (∀ fs dfs, fs.lookup "data" = some (.obj dfs) → dfs.lookup "f58" = none →
      http (secidOf code) = .resp 200 (.ok (.obj fs)) →
      (fetch_stock_name http code).1 = "") := by
  by_cases hg : code = "" ∨ code.data.length ≠ 6 ∨ ¬ code.data.all Char.isDigit = true
  · have hres : fetch_stock_name http code = ("", []) := fetch_guard_result hg
    exact ⟨fun _ => by rw [hres], fun s b _ _ => by rw [hres], fun _ => by rw [hres],
      fun fs _ _ => by rw [hres], fun fs dfs _ _ _ => by rw [hres]⟩
  · refine ⟨?_, ?_, ?_, ?_, ?_⟩
    · intro hr
      unfold fetch_stock_name
      rw [if_neg hg, hr]
    · intro status body hs hr
      unfold fetch_stock_name
      rw [if_neg hg, hr]
      show (if status ≠ 200 then ("", [secidOf code]) else _).1 = ""
      rw [if_pos hs]
    · intro hr
      unfold fetch_stock_name
      rw [if_neg hg, hr]
      rfl
    · intro fs hlk hr
      unfold fetch_stock_name
      rw [if_neg hg, hr]
      show extract_name (.obj fs) = ""
      unfold extract_name
      rw [pyGetOr_obj, hlk]
      rfl
    · intro fs dfs hlk hf58 hr
      unfold fetch_stock_name
      rw [if_neg hg, hr]
      show extract_name (.obj fs) = ""
      unfold extract_name
      rw [pyGetOr_obj, hlk]
      by_cases hdfs : dfs = []
      · subst hdfs
        rfl
      · have htr : jsonTruthy (.obj dfs) = true := by
          rcases dfs with _ | ⟨p, rest⟩
          · exact absurd rfl hdfs
          · rfl
        show (match pyGetOr (if jsonTruthy (.obj dfs) then .obj dfs else .obj [])
            "f58" (.str "") with
          | PyJson.str s => s
          | _ => "") = ""
        rw [htr]
        show (match pyGetOr (.obj dfs) "f58" (.str "") with
          | PyJson.str s => s
          | _ => "") = ""
        rw [pyGetOr_obj, hf58]

/-- Witness for C6: concrete failure instances — an unreachable service, a
500 response, an unparsable body, and a response with no `"data"` — all
resolve the valid code `"600519"` to the empty name. -/
theorem C6_witness :
    (fetch_stock_name httpDown "600519").1 = "" ∧
    (fetch_stock_name (fun _ => HttpResult.resp 500 (.ok (.obj []))) "600519").1 = "" ∧
    (fetch_stock_name (fun _ => HttpResult.resp 200 (.error ())) "600519").1 = "" ∧
    (fetch_stock_name (httpJson (.obj [("rc", .jnull)])) "600519").1 = "" :=
  ⟨(C6_thm "600519" httpDown).1 rfl,
   (C6_thm "600519" (fun _ => HttpResult.resp 500 (.ok (.obj [])))).2.1 500 (.ok (.obj []))
     (by decide) rfl,
   (C6_thm "600519" (fun _ => HttpResult.resp 200 (.error ()))).2.2.1 rfl,
   (C6_thm "600519" (httpJson (.obj [("rc", .jnull)]))).2.2.2.1 [("rc", .jnull)] rfl rfl⟩

/-- Claim C7: when the notification-gateway access key (`BARK_KEY`) is
absent, `send_bark` short-circuits — the result reports `ok = false` with
the configuration error `"BARK_KEY not set"` and no outbound request is
issued, for every server, oracle, title, body and group. -/
theorem C7_thm (bark_server : String) (http : String → String → BarkHttp)
    (title body group : String) :
    send_bark none bark_server http title body group =
      (⟨false, some "BARK_KEY not set", none, none⟩, []) := rfl

/-- Claim C8: `format_price` returns `""` for `None` and for the empty
string; it formats parsable inputs to two decimals (`"11.82"` stays
`"11.82"`, the number 11.8 becomes `"11.80"`); it returns unparsable
strings unchanged (`"N/A"`); and in general every number is formatted with
`fix2` and every non-empty unparsable string is passed through verbatim —
the function is total, so no error is raised. -/
theorem C8_thm :
    format_price .vnone = "" ∧
    format_price (.vstr "") = "" ∧
    format_price (.vstr "11.82") = "11.82" ∧
    format_price (.vnum ⟨118, 1⟩) = "11.80" ∧
    format_price (.vstr "N/A") = "N/A" ∧
    (∀ d : Dec, format_price (.vnum d) = fix2 d) ∧
    (∀ s : String, s ≠ "" → pyParseFloat s = none → format_price (.vstr s) = s) ∧
    (∀ (s : String) (d : Dec), s ≠ "" → pyParseFloat s = some d →
      format_price (.vstr s) = fix2 d) := by
  refine ⟨by decide, by decide, by decide, by decide, by decide, ?_, ?_, ?_⟩
  · intro d
    unfold format_price
    rw [if_neg ?_]
    · rfl
    · rintro (h | h) <;> exact PyVal.noConfusion h
  · intro s hs hp
    unfold format_price
    rw [if_neg ?_]
    · show (match pyFloatOf (.vstr s) with
        | some p => fix2 p
        | none => pyStrOf (.vstr s)) = s
      show (match pyParseFloat s with
        | some p => fix2 p
        | none => pyStrOf (.vstr s)) = s
      rw [hp]
      rfl
    · rintro (h | h)
      · exact PyVal.noConfusion h
      · exact hs (by injection h)
  · intro s d hs hp
    unfold format_price
    rw [if_neg ?_]
    · show (match pyParseFloat s with
        | some p => fix2 p
        | none => pyStrOf (.vstr s)) = fix2 d
      rw [hp]
    · rintro (h | h)
      · exact PyVal.noConfusion h
      · exact hs (by injection h)

/-- Witness for C8: the universal clauses instantiated — the number 2.5 is
formatted as `"2.50"`, the unparsable `"bad"` passes through, and the
parsable string `"2.5"` is formatted via its parsed value. -/
theorem C8_witness :
    format_price (.vnum ⟨25, 1⟩) = fix2 ⟨25, 1⟩ ∧
    format_price (.vstr "bad") = "bad" ∧
    format_price (.vstr "2.5") = fix2 ⟨25, 1⟩ :=
  ⟨C8_thm.2.2.2.2.2.1 ⟨25, 1⟩,
   C8_thm.2.2.2.2.2.2.1 "bad" (by decide) (by decide),
   C8_thm.2.2.2.2.2.2.2 "2.5" ⟨25, 1⟩ (by decide) (by decide)⟩
